import Mathlib

/-!
Verification development for the attendance module of the fifac-backend
repository (attendance data-access layer and its HTTP route validation).

Modelling conventions for the shallow embedding:
* A JS `Date` value / stored ISO-8601 string is modelled by `Timestamp`, a
  record of calendar components.  For the fixed-width ISO-8601 format used
  throughout the code (`toISOString`), lexicographic comparison of the
  stored strings coincides with the componentwise lexicographic order on
  the components, and `new Date(a) - new Date(b)` induces the same order;
  both are modelled by `Timestamp.le`.  The host clock is taken to be UTC,
  so the local-time day/month arithmetic of the code coincides with the
  components of the stored strings.
* The Firestore collection is a list of documents in snapshot order
  (ascending document name); `where` clauses are `List.filter`, `orderBy
  date` is a stable `mergeSort` by date, `limit(1)` is `head?`.
* Document writes (`update`, `add`, `delete`, batch delete) are pure
  state transformations on the list.
* A store error thrown by the compound query is modelled by an explicit
  `Option StoreErr` oracle argument; `none` means the query succeeds.
* JS numeric arithmetic in the summary percentage is modelled exactly over
  `ℚ`, with `Math.round x = ⌊x + 1/2⌋`.
-/

/-- Calendar timestamp: the components of a parsed JS `Date` (UTC), also the
components of a stored ISO-8601 string. -/
structure Timestamp where
  year : Nat
  month : Nat
  day : Nat
  hour : Nat
  minute : Nat
  second : Nat
  ms : Nat
deriving DecidableEq, Repr

/-- Lexicographic (chronological) order on timestamps, as a proposition. -/
def Timestamp.leP (a b : Timestamp) : Prop :=
  a.year < b.year ∨ (a.year = b.year ∧
    (a.month < b.month ∨ (a.month = b.month ∧
      (a.day < b.day ∨ (a.day = b.day ∧
        (a.hour < b.hour ∨ (a.hour = b.hour ∧
          (a.minute < b.minute ∨ (a.minute = b.minute ∧
            (a.second < b.second ∨ (a.second = b.second ∧
              a.ms ≤ b.ms)))))))))))

instance (a b : Timestamp) : Decidable (a.leP b) := by
  unfold Timestamp.leP; exact inferInstance

/-- Boolean order on timestamps: models both lexicographic comparison of the
stored ISO strings and numeric comparison of parsed dates. -/
def Timestamp.le (a b : Timestamp) : Bool := decide (a.leP b)

/-- Valid time-of-day components (as produced by a real date value). -/
def Timestamp.Valid (t : Timestamp) : Prop :=
  t.hour ≤ 23 ∧ t.minute ≤ 59 ∧ t.second ≤ 59 ∧ t.ms ≤ 999

instance (t : Timestamp) : Decidable t.Valid := by
  unfold Timestamp.Valid; exact inferInstance

/-- Two timestamps denote the same calendar day. -/
def sameDay (a b : Timestamp) : Prop :=
  a.year = b.year ∧ a.month = b.month ∧ a.day = b.day

instance (a b : Timestamp) : Decidable (sameDay a b) := by
  unfold sameDay; exact inferInstance

/-- Start-of-day boundary: models
`new Date(d.getFullYear(), d.getMonth(), d.getDate(), 0, 0, 0, 0).toISOString()`. -/
def startOfDay (t : Timestamp) : Timestamp := ⟨t.year, t.month, t.day, 0, 0, 0, 0⟩

/-- End-of-day boundary: models
`new Date(d.getFullYear(), d.getMonth(), d.getDate(), 23, 59, 59, 999).toISOString()`. -/
def endOfDay (t : Timestamp) : Timestamp := ⟨t.year, t.month, t.day, 23, 59, 59, 999⟩

/-- Gregorian leap-year test, as implemented by the host date library. -/
def isLeapYear (y : Nat) : Bool := (y % 4 == 0 && y % 100 != 0) || y % 400 == 0

/-- Number of days of month `m` (1-indexed) of year `y`: models
`new Date(year, month, 0).getDate()` for `1 ≤ m ≤ 12`. -/
def daysInMonth (y m : Nat) : Nat :=
  if m == 2 then (if isLeapYear y then 29 else 28)
  else if m == 4 || m == 6 || m == 9 || m == 11 then 30
  else 31

/-- First instant of the month: models `new Date(year, month - 1, 1).toISOString()`. -/
def monthStart (y m : Nat) : Timestamp := ⟨y, m, 1, 0, 0, 0, 0⟩

/-- Last queried instant of the month: models
`new Date(year, month, 0, 23, 59, 59).toISOString()` (milliseconds default to 0). -/
def monthEnd (y m : Nat) : Timestamp := ⟨y, m, daysInMonth y m, 23, 59, 59, 0⟩

/-- Fields of one attendance document, as written by the reconciler. -/
structure AttendanceData where
  studentId : String
  date : Timestamp
  status : String
  notes : String
  createdAt : Timestamp
  updatedAt : Timestamp
deriving DecidableEq, Repr

/-- A stored document: store-assigned id plus data. -/
structure Doc where
  id : Nat
  data : AttendanceData
deriving DecidableEq, Repr

/-- The attendance collection in snapshot order (ascending document name). -/
abbrev Store := List Doc

/-- Caller input to `markAttendance` (the route passes
`{studentId, date: new Date(date).toISOString(), status, notes: notes || ''}`). -/
structure MarkInput where
  studentId : String
  date : Timestamp
  status : String
  notes : Option String
deriving DecidableEq, Repr

/-- Fresh document id generated by the store on `add`. -/
def freshId (s : Store) : Nat := (s.map Doc.id).foldr Nat.max 0 + 1

/-- Read a document by id: models `collection.doc(i).get()`. -/
def getDoc (s : Store) (i : Nat) : Option Doc := s.find? (fun d => d.id == i)

/-- Store error thrown by a query. -/
structure StoreErr where
  code : String
  message : String
deriving DecidableEq, Repr

/-- Substring test: models `String.prototype.includes` for a nonempty pattern. -/
def jsIncludes (s pat : String) : Bool := (s.splitOn pat).length > 1

/-- Missing-index classification in the catch blocks:
`e.code === 'failed-precondition' || e.message.includes('index') || e.message.includes('composite')`. -/
def isIndexErr (e : StoreErr) : Bool :=
  e.code == "failed-precondition" || jsIncludes e.message "index" ||
    jsIncludes e.message "composite"

/-- Day-range match used by `markAttendance` to find an existing record:
`studentId == a.studentId && startOfDay <= date && date <= endOfDay`. -/
def matchesDay (a : MarkInput) (d : Doc) : Bool :=
  d.data.studentId == a.studentId && (startOfDay a.date).le d.data.date &&
    d.data.date.le (endOfDay a.date)

/-- Comparator for `orderBy('date', 'asc')` and for the JS sort
`(a, b) => new Date(a.date) - new Date(b.date)`. -/
def dateLe (a b : Doc) : Bool := a.data.date.le b.data.date

/-- One-document update: `doc(docId).update({status, notes: notes || '', updatedAt})`. -/
def applyUpdate (a : MarkInput) (now : Timestamp) (d : Doc) : Doc :=
  ⟨d.id, { d.data with status := a.status, notes := a.notes.getD "", updatedAt := now }⟩

/-- Store state after the update write targeting document `docId`. -/
def updateStore (s : Store) (docId : Nat) (a : MarkInput) (now : Timestamp) : Store :=
  s.map (fun d => if d.id == docId then applyUpdate a now d else d)

/-- New record constructed by `markAttendance` when no record exists for the day. -/
def newRecord (a : MarkInput) (now : Timestamp) : AttendanceData :=
  { studentId := a.studentId, date := a.date, status := a.status,
    notes := a.notes.getD "", createdAt := now, updatedAt := now }

/-- Create path: `add(newRecord)` then `docRef.get()`; returns the read-back
document and the new store state. -/
def createNew (s : Store) (a : MarkInput) (now : Timestamp) : Option Doc × Store :=
  let s2 := s ++ [⟨freshId s, newRecord a now⟩]
  (getDoc s2 (freshId s), s2)

/-- Update path: `update(...)` then `doc(docId).get()`; returns the read-back
document and the new store state. -/
def markUpdatePath (s : Store) (docId : Nat) (a : MarkInput) (now : Timestamp) :
    Option Doc × Store :=
  let s2 := updateStore s docId a now
  (getDoc s2 docId, s2)

/-- Fallback for `markAttendance`: fetch all docs of the student (snapshot
order), filter client-side by the day range, update `existingRecords[0]` if
any, else create. -/
def markAttendanceFallback (s : Store) (a : MarkInput) (now : Timestamp) :
    Option Doc × Store :=
  match (s.filter (matchesDay a)).head? with
  | some d0 => markUpdatePath s d0.id a now
  | none => createNew s a now

/-- The reconciler `markAttendance`.  `err = none`: the compound day-range
query (ordered by the inequality field, `limit(1)`) succeeds; `err = some e`:
the query throws and the catch block dispatches on `isIndexErr` — both
branches run the fallback. -/
def markAttendance (s : Store) (a : MarkInput) (now : Timestamp)
    (err : Option StoreErr) : Option Doc × Store :=
  match err with
  | some e =>
    if isIndexErr e then markAttendanceFallback s a now
    else markAttendanceFallback s a now
  | none =>
    match ((s.filter (matchesDay a)).mergeSort dateLe).head? with
    | some d0 => markUpdatePath s d0.id a now
    | none => createNew s a now

/-- Equality filter `where('studentId', '==', sid)`. -/
def studentMatches (sid : String) (d : Doc) : Bool := d.data.studentId == sid

/-- Client-side month-range check `date >= startDate && date <= endDate`. -/
def inMonthRange (y m : Nat) (d : Doc) : Bool :=
  (monthStart y m).le d.data.date && d.data.date.le (monthEnd y m)

/-- Store-side compound filter of the primary query. -/
def monthMatches (sid : String) (y m : Nat) (d : Doc) : Bool :=
  d.data.studentId == sid && (monthStart y m).le d.data.date &&
    d.data.date.le (monthEnd y m)

/-- Primary path of `getStudentAttendance`: compound equality+range query
ordered ascending by date. -/
def getStudentAttendancePrimary (s : Store) (sid : String) (y m : Nat) : List Doc :=
  (s.filter (monthMatches sid y m)).mergeSort dateLe

/-- Fallback path: fetch all docs for the student, filter client-side by the
month range, sort ascending by parsed date. -/
def getStudentAttendanceFallback (s : Store) (sid : String) (y m : Nat) : List Doc :=
  (((s.filter (studentMatches sid)).filter (inMonthRange y m))).mergeSort dateLe

/-- The reconciler `getStudentAttendance`: primary compound query; on any
query error the catch block dispatches on `isIndexErr` and both branches run
the fallback. -/
def getStudentAttendance (s : Store) (sid : String) (y m : Nat)
    (err : Option StoreErr) : List Doc :=
  match err with
  | none => getStudentAttendancePrimary s sid y m
  | some e =>
    if isIndexErr e then getStudentAttendanceFallback s sid y m
    else getStudentAttendanceFallback s sid y m

/-- The reconciler `deleteAttendance`: read the doc; if absent return `false`,
else delete it and return `true`. -/
def deleteAttendance (s : Store) (i : Nat) : Bool × Store :=
  match getDoc s i with
  | none => (false, s)
  | some _ => (true, s.filter (fun d => !(d.id == i)))

/-- The reconciler `deleteMonthlyAttendance`: fetch all docs of the student,
filter client-side by the month range, batch-delete the matches, return the
count. -/
def deleteMonthlyAttendance (s : Store) (sid : String) (y m : Nat) : Nat × Store :=
  let snapshot := s.filter (studentMatches sid)
  if snapshot.isEmpty then (0, s)
  else
    let docsToDelete := snapshot.filter (inMonthRange y m)
    if docsToDelete.length == 0 then (0, s)
    else (docsToDelete.length,
      s.filter (fun d => !(studentMatches sid d && inMonthRange y m d)))

/-- Rounding of `Math.round` on exact rationals: `⌊x + 1/2⌋`. -/
def mathRound (q : ℚ) : ℤ := ⌊q + 1/2⌋

/-- Result of `getAttendanceSummary`. -/
structure Summary where
  totalDays : Nat
  present : Nat
  absent : Nat
  leave : Nat
  percentage : ℤ
deriving DecidableEq, Repr

/-- Summary computation over an already-fetched month of records. -/
def computeSummary (attendance : List Doc) (totalDays : Nat) : Summary :=
  let presentDays := (attendance.filter (fun r => r.data.status == "present")).length
  let absentDays := (attendance.filter (fun r => r.data.status == "absent")).length
  let leaveDays := (attendance.filter (fun r => r.data.status == "leave")).length
  { totalDays := totalDays, present := presentDays, absent := absentDays,
    leave := leaveDays,
    percentage :=
      if totalDays > 0 then mathRound ((presentDays : ℚ) / (totalDays : ℚ) * 100)
      else 0 }

/-- The reconciler `getAttendanceSummary`: fetch the month then compute counts
and percentage with `totalDays = new Date(year, month, 0).getDate()`. -/
def getAttendanceSummary (s : Store) (sid : String) (y m : Nat)
    (err : Option StoreErr) : Summary :=
  computeSummary (getStudentAttendance s sid y m err) (daysInMonth y m)

/-- Route validation of `POST /api/attendance`: rejects only when
`!studentId || !date || !status` (empty strings are falsy); the status value
itself is not inspected. -/
def routeAcceptsMark (studentId date status : String) : Bool :=
  !(studentId == "" || date == "" || status == "")

/-- Store well-formedness guaranteed by the store and the writers: distinct
document ids, and every stored date has valid time-of-day components. -/
def WellFormedStore (s : Store) : Prop :=
  (s.map Doc.id).Nodup ∧ ∀ d ∈ s, d.data.date.Valid

/-- The reconciler invariant: at most one document per
`(studentId, calendar day)` pair. -/
def UniqueDay (s : Store) : Prop :=
  ∀ d1 ∈ s, ∀ d2 ∈ s, d1.data.studentId = d2.data.studentId →
    sameDay d1.data.date d2.data.date → d1.id = d2.id

instance (s : Store) : Decidable (WellFormedStore s) := by
  unfold WellFormedStore; exact inferInstance

instance (s : Store) : Decidable (UniqueDay s) := by
  unfold UniqueDay; exact inferInstance

/-- One sequential operation against the attendance collection. -/
inductive AttOp where
  | mark (a : MarkInput) (now : Timestamp) (err : Option StoreErr)
  | del (i : Nat)
  | delMonth (sid : String) (y : Nat) (m : Nat)

/-- Well-formed operation: a mark carries a real date value. -/
def AttOp.Valid : AttOp → Prop
  | .mark a _ _ => a.date.Valid
  | .del _ => True
  | .delMonth _ _ _ => True

/-- State transition of one operation. -/
def applyOp (s : Store) : AttOp → Store
  | .mark a now err => (markAttendance s a now err).2
  | .del i => (deleteAttendance s i).2
  | .delMonth sid y m => (deleteMonthlyAttendance s sid y m).2

/-- Sequential execution of a list of operations. -/
def runOps (s : Store) (ops : List AttOp) : Store := ops.foldl applyOp s

/-- All stored documents of a student on a given calendar day (the claim-level
reading of "AttendanceRecord per (studentId, calendar day) pair"). -/
def recordsForDay (s : Store) (sid : String) (t : Timestamp) : List Doc :=
  s.filter (fun d => d.data.studentId == sid && decide (sameDay d.data.date t))

/-- Modelled from the spec: the return value of the update path as §4.1 words
it — "reconstructed from inputs, not re-read from the store": the document id
from the pre-write read combined with the caller's inputs and the write
timestamp.  Compared against the code's actual return value, which re-reads
the document. -/
def specReconstructedUpdateReturn (docId : Nat) (a : MarkInput)
    (now createdAt : Timestamp) : Doc :=
  ⟨docId, { studentId := a.studentId, date := a.date, status := a.status,
            notes := a.notes.getD "", createdAt := createdAt, updatedAt := now }⟩

/-- Concrete stored document used in the worked examples: marked "present" at
08:00 on 2024-03-05. -/
def cexStored : Doc :=
  ⟨1, { studentId := "S1", date := ⟨2024, 3, 5, 8, 0, 0, 0⟩, status := "present",
        notes := "", createdAt := ⟨2024, 3, 1, 9, 0, 0, 0⟩,
        updatedAt := ⟨2024, 3, 1, 9, 0, 0, 0⟩ }⟩

/-- Concrete caller input used in the worked examples: same calendar day as
`cexStored` but a different time of day and a different status. -/
def cexInput : MarkInput :=
  { studentId := "S1", date := ⟨2024, 3, 5, 20, 0, 0, 0⟩, status := "absent",
    notes := none }

/-- Concrete write timestamp used in the worked examples. -/
def cexNow : Timestamp := ⟨2024, 3, 6, 7, 0, 0, 0⟩

/-- The document that the update path of `markAttendance` actually returns in
the worked example: the stored record with `status`, `notes`, `updatedAt`
overwritten — note the stored 08:00 date and the stored `createdAt`. -/
def cexReturned : Doc :=
  ⟨1, { studentId := "S1", date := ⟨2024, 3, 5, 8, 0, 0, 0⟩, status := "absent",
        notes := "", createdAt := ⟨2024, 3, 1, 9, 0, 0, 0⟩, updatedAt := cexNow }⟩

/-- Concrete input with a status outside the `present | absent | leave`
enumeration. -/
def cexWeird : MarkInput :=
  { studentId := "S1", date := ⟨2024, 3, 5, 10, 0, 0, 0⟩, status := "banana",
    notes := none }

/-! ### Basic facts about the timestamp order -/

theorem Timestamp.le_iff (a b : Timestamp) : a.le b = true ↔ a.leP b := by
  simp [Timestamp.le]

theorem Timestamp.le_trans {a b c : Timestamp} (h1 : a.le b = true)
    (h2 : b.le c = true) : a.le c = true := by
  rw [Timestamp.le_iff] at *
  unfold Timestamp.leP at *
  omega

theorem Timestamp.le_total (a b : Timestamp) : (a.le b || b.le a) = true := by
  rw [Bool.or_eq_true, Timestamp.le_iff, Timestamp.le_iff]
  unfold Timestamp.leP
  omega

theorem dateLe_trans (a b c : Doc) (h1 : dateLe a b = true) (h2 : dateLe b c = true) :
    dateLe a c = true :=
  Timestamp.le_trans h1 h2

theorem dateLe_total (a b : Doc) : (dateLe a b || dateLe b a) = true :=
  Timestamp.le_total _ _

/-! ### Day and month range characterisations -/

theorem inDayRange_imp_sameDay {t t0 : Timestamp}
    (h1 : (startOfDay t0).le t = true) (h2 : t.le (endOfDay t0) = true) :
    sameDay t t0 := by
  rw [Timestamp.le_iff] at h1 h2
  unfold Timestamp.leP at h1 h2
  unfold startOfDay at h1
  unfold endOfDay at h2
  unfold sameDay
  dsimp only at h1 h2
  omega

theorem sameDay_imp_inDayRange {t t0 : Timestamp} (hv : t.Valid) (h : sameDay t t0) :
    (startOfDay t0).le t = true ∧ t.le (endOfDay t0) = true := by
  obtain ⟨h1, h2, h3, h4⟩ := hv
  obtain ⟨e1, e2, e3⟩ := h
  rw [Timestamp.le_iff, Timestamp.le_iff]
  unfold Timestamp.leP startOfDay endOfDay
  dsimp only
  refine ⟨by omega, by omega⟩

theorem matchesDay_iff {a : MarkInput} {d : Doc} (hv : d.data.date.Valid) :
    matchesDay a d = true ↔
      (d.data.studentId = a.studentId ∧ sameDay d.data.date a.date) := by
  unfold matchesDay
  simp only [Bool.and_eq_true, beq_iff_eq]
  constructor
  · rintro ⟨⟨hs, h1⟩, h2⟩
    exact ⟨hs, inDayRange_imp_sameDay h1 h2⟩
  · rintro ⟨hs, hd⟩
    obtain ⟨h1, h2⟩ := sameDay_imp_inDayRange hv hd
    exact ⟨⟨hs, h1⟩, h2⟩

theorem monthMatches_bounds {sid : String} {y m : Nat} {d : Doc}
    (h : monthMatches sid y m d = true) :
    d.data.studentId = sid ∧ d.data.date.year = y ∧ d.data.date.month = m ∧
      1 ≤ d.data.date.day ∧ d.data.date.day ≤ daysInMonth y m := by
  unfold monthMatches at h
  simp only [Bool.and_eq_true, beq_iff_eq] at h
  obtain ⟨⟨hs, h1⟩, h2⟩ := h
  rw [Timestamp.le_iff] at h1 h2
  unfold Timestamp.leP at h1 h2
  unfold monthStart at h1
  unfold monthEnd at h2
  dsimp only at h1 h2
  exact ⟨hs, by omega, by omega, by omega, by omega⟩

theorem monthMatches_eq (sid : String) (y m : Nat) (d : Doc) :
    monthMatches sid y m d = (studentMatches sid d && inMonthRange y m d) := by
  unfold monthMatches studentMatches inMonthRange
  cases d.data.studentId == sid <;> cases (monthStart y m).le d.data.date <;>
    cases d.data.date.le (monthEnd y m) <;> rfl

/-! ### Fresh ids and document lookup -/

theorem id_le_foldr_max (s : Store) (d : Doc) (hd : d ∈ s) :
    d.id ≤ (s.map Doc.id).foldr Nat.max 0 := by
  induction s with
  | nil => cases hd
  | cons e t ih =>
    rcases List.mem_cons.mp hd with h | h
    · subst h; exact Nat.le_max_left _ _
    · exact Nat.le_trans (ih h) (Nat.le_max_right _ _)

theorem id_lt_freshId {s : Store} {d : Doc} (hd : d ∈ s) : d.id < freshId s :=
  Nat.lt_succ_of_le (id_le_foldr_max s d hd)

theorem getDoc_append_fresh (s : Store) (x : AttendanceData) :
    getDoc (s ++ [⟨freshId s, x⟩]) (freshId s) = some ⟨freshId s, x⟩ := by
  unfold getDoc
  rw [List.find?_append]
  have hnone : s.find? (fun d => d.id == freshId s) = none := by
    rw [List.find?_eq_none]
    intro d hd
    simp only [beq_iff_eq]
    exact Nat.ne_of_lt (id_lt_freshId hd)
  rw [hnone]
  simp

theorem applyUpdate_id (a : MarkInput) (now : Timestamp) (d : Doc) :
    (applyUpdate a now d).id = d.id := rfl

theorem getDoc_updateStore {s : Store} {docId : Nat} {d : Doc}
    (a : MarkInput) (now : Timestamp) (h : getDoc s docId = some d) :
    getDoc (updateStore s docId a now) docId = some (applyUpdate a now d) := by
  unfold getDoc updateStore at *
  rw [List.find?_map]
  have hp : ((fun d => d.id == docId) ∘
      fun d => if d.id == docId then applyUpdate a now d else d) =
      (fun d => d.id == docId) := by
    funext e
    by_cases he : e.id = docId
    · simp [applyUpdate, he]
    · simp [he]
  rw [hp, h]
  have hd : (d.id == docId) = true := by simpa using List.find?_some h
  simp only [Option.map_some', hd, if_true]

/-! ### Case analysis of `markAttendance` -/

theorem mark_cases (s : Store) (a : MarkInput) (now : Timestamp)
    (err : Option StoreErr) :
    (∃ d0, d0 ∈ s.filter (matchesDay a) ∧
        markAttendance s a now err = markUpdatePath s d0.id a now) ∨
      (s.filter (matchesDay a) = [] ∧
        markAttendance s a now err = createNew s a now) := by
  cases err with
  | some e =>
    have heq : markAttendance s a now (some e) = markAttendanceFallback s a now := by
      show (if isIndexErr e = true then markAttendanceFallback s a now
        else markAttendanceFallback s a now) = markAttendanceFallback s a now
      split <;> rfl
    rw [heq]
    unfold markAttendanceFallback
    cases hh : (s.filter (matchesDay a)).head? with
    | some d0 => exact Or.inl ⟨d0, List.mem_of_mem_head? hh, rfl⟩
    | none => exact Or.inr ⟨List.head?_eq_none_iff.mp hh, rfl⟩
  | none =>
    unfold markAttendance
    cases hh : ((s.filter (matchesDay a)).mergeSort dateLe).head? with
    | some d0 =>
      refine Or.inl ⟨d0, ?_, rfl⟩
      exact (List.mergeSort_perm (s.filter (matchesDay a)) dateLe).mem_iff.mp
        (List.mem_of_mem_head? hh)
    | none =>
      have hms : (s.filter (matchesDay a)).mergeSort dateLe = [] :=
        List.head?_eq_none_iff.mp hh
      have hp := (List.mergeSort_perm (s.filter (matchesDay a)) dateLe).symm
      rw [hms] at hp
      exact Or.inr ⟨hp.eq_nil, rfl⟩

/-- Boolean day predicate preserved by an update write (which touches only
`status`, `notes`, `updatedAt`). -/
theorem matchesDay_update_invariant (a b : MarkInput) (now : Timestamp)
    (docId : Nat) (d : Doc) :
    matchesDay a (if d.id == docId then applyUpdate b now d else d) =
      matchesDay a d := by
  by_cases h : d.id = docId
  · simp [h, matchesDay, applyUpdate]
  · simp [h]

theorem filter_matchesDay_updateStore (s : Store) (a b : MarkInput)
    (now : Timestamp) (docId : Nat) :
    (updateStore s docId b now).filter (matchesDay a) =
      (s.filter (matchesDay a)).map
        (fun d => if d.id == docId then applyUpdate b now d else d) := by
  unfold updateStore
  rw [List.filter_map]
  congr 1
  apply List.filter_congr
  intro d _
  simpa using matchesDay_update_invariant a b now docId d

/-- Under distinct ids and the uniqueness invariant, at most one stored
document matches a given day query. -/
theorem filter_matchesDay_subsingleton {s : Store} (a : MarkInput)
    (hwf : WellFormedStore s) (hu : UniqueDay s) :
    (s.filter (matchesDay a)).length ≤ 1 := by
  have hpw : s.Pairwise (fun d e : Doc => d.id ≠ e.id) :=
    List.pairwise_map.mp hwf.1
  have hpf : (s.filter (matchesDay a)).Pairwise (fun d e : Doc => d.id ≠ e.id) :=
    hpw.filter (matchesDay a)
  have hfalse : (s.filter (matchesDay a)).Pairwise (fun _ _ : Doc => False) := by
    refine hpf.imp_of_mem ?_
    intro d e hd he hne
    have hd' := List.mem_filter.mp hd
    have he' := List.mem_filter.mp he
    have hdv := hwf.2 d hd'.1
    have hev := hwf.2 e he'.1
    obtain ⟨hds, hdd⟩ := (matchesDay_iff hdv).mp hd'.2
    obtain ⟨hes, hed⟩ := (matchesDay_iff hev).mp he'.2
    have : sameDay d.data.date e.data.date := by
      obtain ⟨x1, x2, x3⟩ := hdd
      obtain ⟨y1, y2, y3⟩ := hed
      exact ⟨x1.trans y1.symm, x2.trans y2.symm, x3.trans y3.symm⟩
    exact hne (hu d hd'.1 e he'.1 (hds.trans hes.symm) this)
  match hl : s.filter (matchesDay a) with
  | [] => simp
  | [x] => simp
  | x :: y :: t =>
    rw [hl] at hfalse
    exact absurd (List.rel_of_pairwise_cons hfalse (List.mem_cons_self y t)) id

theorem filter_eq_singleton_of_mem_of_subsingleton {l : List Doc} {d : Doc}
    (hd : d ∈ l) (hlen : l.length ≤ 1) : l = [d] := by
  match l, hd with
  | [x], hd =>
    rcases List.mem_singleton.mp hd with rfl
    rfl
  | x :: y :: t, _ => simp at hlen

theorem sameDay_refl (t : Timestamp) : sameDay t t := ⟨rfl, rfl, rfl⟩

/-- Key day-level behaviour of one `markAttendance` call: afterwards the
store holds exactly one document matching the call's day query, and it
carries the call's status. -/
theorem mark_day_state (s : Store) (a : MarkInput) (now : Timestamp)
    (err : Option StoreErr) (hwf : WellFormedStore s) (hu : UniqueDay s)
    (hv : a.date.Valid) :
    ∃ r, (markAttendance s a now err).2.filter (matchesDay a) = [r] ∧
      r.data.status = a.status ∧ r.data.studentId = a.studentId ∧
      sameDay r.data.date a.date := by
  rcases mark_cases s a now err with ⟨d0, hd0, heq⟩ | ⟨hnil, heq⟩
  · have hflt : s.filter (matchesDay a) = [d0] :=
      filter_eq_singleton_of_mem_of_subsingleton hd0
        (filter_matchesDay_subsingleton a hwf hu)
    have hd0m := List.mem_filter.mp hd0
    have hprops := (matchesDay_iff (hwf.2 d0 hd0m.1)).mp hd0m.2
    refine ⟨applyUpdate a now d0, ?_, rfl, hprops.1, hprops.2⟩
    rw [heq]
    show (updateStore s d0.id a now).filter (matchesDay a) = _
    rw [filter_matchesDay_updateStore, hflt]
    simp [List.map_singleton]
  · refine ⟨⟨freshId s, newRecord a now⟩, ?_, rfl, rfl, sameDay_refl _⟩
    rw [heq]
    show (s ++ [(⟨freshId s, newRecord a now⟩ : Doc)]).filter (matchesDay a) = _
    rw [List.filter_append, hnil]
    have hm : matchesDay a ⟨freshId s, newRecord a now⟩ = true := by
      rw [matchesDay_iff hv]
      exact ⟨rfl, sameDay_refl _⟩
    simp [hm]

/-! ### Preservation of store well-formedness and the uniqueness invariant -/

theorem map_id_updateStore (s : Store) (docId : Nat) (a : MarkInput)
    (now : Timestamp) :
    (updateStore s docId a now).map Doc.id = s.map Doc.id := by
  unfold updateStore
  rw [List.map_map]
  apply List.map_congr_left
  intro d _
  by_cases h : d.id = docId
  · simp [h, applyUpdate]
  · simp [h]

theorem wellFormed_updateStore {s : Store} (docId : Nat) (a : MarkInput)
    (now : Timestamp) (hwf : WellFormedStore s) :
    WellFormedStore (updateStore s docId a now) := by
  constructor
  · rw [map_id_updateStore]; exact hwf.1
  · intro d hd
    unfold updateStore at hd
    obtain ⟨e, he, rfl⟩ := List.mem_map.mp hd
    by_cases h : e.id = docId
    · simpa [h, applyUpdate] using hwf.2 e he
    · simpa [h] using hwf.2 e he

theorem uniqueDay_updateStore {s : Store} (docId : Nat) (a : MarkInput)
    (now : Timestamp) (hu : UniqueDay s) :
    UniqueDay (updateStore s docId a now) := by
  intro d1 h1 d2 h2 hsid hday
  unfold updateStore at h1 h2
  obtain ⟨e1, he1, rfl⟩ := List.mem_map.mp h1
  obtain ⟨e2, he2, rfl⟩ := List.mem_map.mp h2
  have k1 : ∀ e : Doc, (if e.id == docId then applyUpdate a now e else e).id = e.id ∧
      (if e.id == docId then applyUpdate a now e else e).data.studentId =
        e.data.studentId ∧
      (if e.id == docId then applyUpdate a now e else e).data.date = e.data.date := by
    intro e
    by_cases h : e.id = docId
    · simp [h, applyUpdate]
    · simp [h]
  obtain ⟨i1, s1, t1⟩ := k1 e1
  obtain ⟨i2, s2', t2⟩ := k1 e2
  rw [i1, i2]
  rw [s1, s2'] at hsid
  rw [t1, t2] at hday
  exact hu e1 he1 e2 he2 hsid hday

theorem wellFormed_createNew {s : Store} (a : MarkInput) (now : Timestamp)
    (hwf : WellFormedStore s) (hv : a.date.Valid) :
    WellFormedStore (s ++ [⟨freshId s, newRecord a now⟩]) := by
  constructor
  · rw [List.map_append]
    apply List.Nodup.append hwf.1 (by simp)
    intro x hx hx2
    simp only [List.map_cons, List.map_nil, List.mem_singleton] at hx2
    obtain ⟨d, hd, rfl⟩ := List.mem_map.mp hx
    exact absurd hx2 (Nat.ne_of_lt (id_lt_freshId hd))
  · intro d hd
    rcases List.mem_append.mp hd with h | h
    · exact hwf.2 d h
    · rcases List.mem_singleton.mp h with rfl
      exact hv

theorem uniqueDay_createNew {s : Store} (a : MarkInput) (now : Timestamp)
    (hwf : WellFormedStore s) (hu : UniqueDay s)
    (hnil : s.filter (matchesDay a) = []) :
    UniqueDay (s ++ [⟨freshId s, newRecord a now⟩]) := by
  have hnomatch : ∀ d ∈ s, d.data.studentId = a.studentId →
      sameDay d.data.date a.date → False := by
    intro d hd hs hday
    have : d ∈ s.filter (matchesDay a) :=
      List.mem_filter.mpr ⟨hd, (matchesDay_iff (hwf.2 d hd)).mpr ⟨hs, hday⟩⟩
    rw [hnil] at this
    cases this
  intro d1 h1 d2 h2 hsid hday
  rcases List.mem_append.mp h1 with m1 | m1 <;>
    rcases List.mem_append.mp h2 with m2 | m2
  · exact hu d1 m1 d2 m2 hsid hday
  · rcases List.mem_singleton.mp m2 with rfl
    exact absurd hday (fun h => hnomatch d1 m1 hsid h)
  · rcases List.mem_singleton.mp m1 with rfl
    obtain ⟨x1, x2, x3⟩ := hday
    exact (hnomatch d2 m2 hsid.symm ⟨x1.symm, x2.symm, x3.symm⟩).elim
  · rw [List.mem_singleton.mp m1, List.mem_singleton.mp m2]

theorem wellFormed_filter {s : Store} (p : Doc → Bool) (hwf : WellFormedStore s) :
    WellFormedStore (s.filter p) := by
  constructor
  · exact hwf.1.sublist ((s.filter_sublist).map Doc.id)
  · intro d hd
    exact hwf.2 d (List.mem_filter.mp hd).1

theorem uniqueDay_filter {s : Store} (p : Doc → Bool) (hu : UniqueDay s) :
    UniqueDay (s.filter p) := by
  intro d1 h1 d2 h2 hsid hday
  exact hu d1 (List.mem_filter.mp h1).1 d2 (List.mem_filter.mp h2).1 hsid hday

theorem mark_preserves (s : Store) (a : MarkInput) (now : Timestamp)
    (err : Option StoreErr) (hwf : WellFormedStore s) (hu : UniqueDay s)
    (hv : a.date.Valid) :
    WellFormedStore (markAttendance s a now err).2 ∧
      UniqueDay (markAttendance s a now err).2 := by
  rcases mark_cases s a now err with ⟨d0, _, heq⟩ | ⟨hnil, heq⟩
  · rw [heq]
    exact ⟨wellFormed_updateStore d0.id a now hwf, uniqueDay_updateStore d0.id a now hu⟩
  · rw [heq]
    exact ⟨wellFormed_createNew a now hwf hv, uniqueDay_createNew a now hwf hu hnil⟩

theorem deleteAttendance_preserves (s : Store) (i : Nat)
    (hwf : WellFormedStore s) (hu : UniqueDay s) :
    WellFormedStore (deleteAttendance s i).2 ∧ UniqueDay (deleteAttendance s i).2 := by
  unfold deleteAttendance
  cases getDoc s i with
  | none => exact ⟨hwf, hu⟩
  | some d => exact ⟨wellFormed_filter _ hwf, uniqueDay_filter _ hu⟩

theorem deleteMonthly_preserves (s : Store) (sid : String) (y m : Nat)
    (hwf : WellFormedStore s) (hu : UniqueDay s) :
    WellFormedStore (deleteMonthlyAttendance s sid y m).2 ∧
      UniqueDay (deleteMonthlyAttendance s sid y m).2 := by
  unfold deleteMonthlyAttendance
  dsimp only
  split
  · exact ⟨hwf, hu⟩
  · split
    · exact ⟨hwf, hu⟩
    · exact ⟨wellFormed_filter _ hwf, uniqueDay_filter _ hu⟩

theorem applyOp_preserves (s : Store) (op : AttOp) (hop : op.Valid)
    (hwf : WellFormedStore s) (hu : UniqueDay s) :
    WellFormedStore (applyOp s op) ∧ UniqueDay (applyOp s op) := by
  cases op with
  | mark a now err => exact mark_preserves s a now err hwf hu hop
  | del i => exact deleteAttendance_preserves s i hwf hu
  | delMonth sid y m => exact deleteMonthly_preserves s sid y m hwf hu

theorem runOps_preserves (ops : List AttOp) (s : Store)
    (hops : ∀ op ∈ ops, op.Valid) (hwf : WellFormedStore s) (hu : UniqueDay s) :
    WellFormedStore (runOps s ops) ∧ UniqueDay (runOps s ops) := by
  induction ops generalizing s with
  | nil => exact ⟨hwf, hu⟩
  | cons op t ih =>
    have h1 := applyOp_preserves s op (hops op (List.mem_cons_self op t)) hwf hu
    exact ih (applyOp s op) (fun o ho => hops o (List.mem_cons_of_mem op ho)) h1.1 h1.2

/-! ### Relating the claim-level day query to the code's range query -/

theorem recordsForDay_eq {s : Store} (a : MarkInput) (hwf : WellFormedStore s) :
    recordsForDay s a.studentId a.date = s.filter (matchesDay a) := by
  unfold recordsForDay
  apply List.filter_congr
  intro d hd
  rw [Bool.eq_iff_iff]
  rw [matchesDay_iff (hwf.2 d hd)]
  simp [Bool.and_eq_true, beq_iff_eq, decide_eq_true_eq]

theorem getDoc_of_mem_nodup {s : Store} {d : Doc} (hn : (s.map Doc.id).Nodup)
    (hd : d ∈ s) : getDoc s d.id = some d := by
  induction s with
  | nil => cases hd
  | cons e t ih =>
    rcases List.mem_cons.mp hd with rfl | hmem
    · unfold getDoc
      simp [List.find?_cons_eq_some]
    · have hne : e.id ≠ d.id := by
        intro hcontra
        have : d.id ∈ t.map Doc.id := List.mem_map_of_mem Doc.id hmem
        rw [← hcontra] at this
        exact (List.nodup_cons.mp hn).1 this
      unfold getDoc at *
      rw [List.find?_cons_of_neg _ (by simpa using hne)]
      exact ih (List.nodup_cons.mp hn).2 hmem

/-! ### Facts about `getStudentAttendance` -/

theorem fallback_eq_primary (s : Store) (sid : String) (y m : Nat) :
    getStudentAttendanceFallback s sid y m = getStudentAttendancePrimary s sid y m := by
  unfold getStudentAttendanceFallback getStudentAttendancePrimary
  congr 1
  rw [List.filter_filter]
  apply List.filter_congr
  intro d _
  rw [monthMatches_eq]
  cases studentMatches sid d <;> cases inMonthRange y m d <;> rfl

theorem get_eq_primary (s : Store) (sid : String) (y m : Nat)
    (err : Option StoreErr) :
    getStudentAttendance s sid y m err = getStudentAttendancePrimary s sid y m := by
  unfold getStudentAttendance
  cases err with
  | none => rfl
  | some e =>
    show (if isIndexErr e = true then getStudentAttendanceFallback s sid y m
      else getStudentAttendanceFallback s sid y m) = _
    rw [fallback_eq_primary]
    split <;> rfl

theorem primary_sorted (s : Store) (sid : String) (y m : Nat) :
    (getStudentAttendancePrimary s sid y m).Pairwise (fun a b => dateLe a b = true) :=
  List.sorted_mergeSort (fun a b c => dateLe_trans a b c) dateLe_total _

theorem mem_primary_iff (s : Store) (sid : String) (y m : Nat) (d : Doc) :
    d ∈ getStudentAttendancePrimary s sid y m ↔
      d ∈ s.filter (monthMatches sid y m) :=
  (List.mergeSort_perm (s.filter (monthMatches sid y m)) dateLe).mem_iff

theorem primary_bounds (s : Store) (sid : String) (y m : Nat) (d : Doc)
    (hd : d ∈ getStudentAttendancePrimary s sid y m) :
    d.data.studentId = sid ∧ d.data.date.year = y ∧ d.data.date.month = m ∧
      1 ≤ d.data.date.day ∧ d.data.date.day ≤ daysInMonth y m :=
  monthMatches_bounds (List.mem_filter.mp ((mem_primary_iff s sid y m d).mp hd)).2

theorem primary_empty_of_no_match (s : Store) (sid : String) (y m : Nat)
    (h : s.filter (monthMatches sid y m) = []) :
    getStudentAttendancePrimary s sid y m = [] := by
  unfold getStudentAttendancePrimary
  rw [h, List.mergeSort_nil]

theorem primary_length (s : Store) (sid : String) (y m : Nat) :
    (getStudentAttendancePrimary s sid y m).length =
      (s.filter (monthMatches sid y m)).length :=
  (List.mergeSort_perm (s.filter (monthMatches sid y m)) dateLe).length_eq

/-- Under distinct ids and the uniqueness invariant, a student has at most one
record per calendar day of the month, so the month query returns at most
`daysInMonth` records. -/
theorem filter_month_length_le {s : Store} (sid : String) (y m : Nat)
    (hwf : WellFormedStore s) (hu : UniqueDay s) :
    (s.filter (monthMatches sid y m)).length ≤ daysInMonth y m := by
  set l := s.filter (monthMatches sid y m) with hl
  have hpw : s.Pairwise (fun d e : Doc => d.id ≠ e.id) :=
    List.pairwise_map.mp hwf.1
  have hpd : l.Pairwise (fun d e : Doc => d.data.date.day ≠ e.data.date.day) := by
    refine (hpw.filter (monthMatches sid y m)).imp_of_mem ?_
    intro d e hd he hne hday
    have hd' := List.mem_filter.mp hd
    have he' := List.mem_filter.mp he
    obtain ⟨ds, dy, dm, _, _⟩ := monthMatches_bounds hd'.2
    obtain ⟨es, ey, em, _, _⟩ := monthMatches_bounds he'.2
    exact hne (hu d hd'.1 e he'.1 (ds.trans es.symm)
      ⟨dy.trans ey.symm, dm.trans em.symm, hday⟩)
  have hnodup : (l.map (fun d => d.data.date.day)).Nodup :=
    List.pairwise_map.mpr hpd
  have hsub : ∀ x ∈ l.map (fun d => d.data.date.day), x ∈ Finset.Icc 1 (daysInMonth y m) := by
    intro x hx
    obtain ⟨d, hd, rfl⟩ := List.mem_map.mp hx
    obtain ⟨_, _, _, h1, h2⟩ := monthMatches_bounds (List.mem_filter.mp hd).2
    exact Finset.mem_Icc.mpr ⟨h1, h2⟩
  have hcard : (l.map (fun d => d.data.date.day)).toFinset.card =
      (l.map (fun d => d.data.date.day)).length :=
    List.toFinset_card_of_nodup hnodup
  have hle : (l.map (fun d => d.data.date.day)).toFinset.card ≤
      (Finset.Icc 1 (daysInMonth y m)).card := by
    apply Finset.card_le_card
    intro x hx
    exact hsub x (List.mem_toFinset.mp hx)
  rw [hcard] at hle
  rw [List.length_map] at hle
  calc l.length ≤ (Finset.Icc 1 (daysInMonth y m)).card := hle
    _ = daysInMonth y m := by rw [Nat.card_Icc]; omega

/-! ### Facts about the summary computation -/

theorem filter_three_le {α : Type} (p q r : α → Bool)
    (hx : ∀ x, ¬(p x = true ∧ q x = true) ∧ ¬(p x = true ∧ r x = true) ∧
      ¬(q x = true ∧ r x = true)) (l : List α) :
    (l.filter p).length + (l.filter q).length + (l.filter r).length ≤ l.length := by
  induction l with
  | nil => simp
  | cons x t ih =>
    obtain ⟨h1, h2, h3⟩ := hx x
    simp only [List.filter_cons]
    by_cases hp : p x = true <;> by_cases hq : q x = true <;> by_cases hr : r x = true
    · exact absurd ⟨hp, hq⟩ h1
    · exact absurd ⟨hp, hq⟩ h1
    · exact absurd ⟨hp, hr⟩ h2
    · rw [if_pos hp, if_neg hq, if_neg hr]; simp only [List.length_cons]; omega
    · exact absurd ⟨hq, hr⟩ h3
    · rw [if_neg hp, if_pos hq, if_neg hr]; simp only [List.length_cons]; omega
    · rw [if_neg hp, if_neg hq, if_pos hr]; simp only [List.length_cons]; omega
    · rw [if_neg hp, if_neg hq, if_neg hr]; simp only [List.length_cons]; omega

theorem daysInMonth_pos (y m : Nat) : 0 < daysInMonth y m := by
  unfold daysInMonth
  split
  · split <;> omega
  · split <;> omega

/-! ### Facts about `deleteMonthlyAttendance` -/

theorem filter_month_via_student (s : Store) (sid : String) (y m : Nat) :
    (s.filter (studentMatches sid)).filter (inMonthRange y m) =
      s.filter (monthMatches sid y m) := by
  rw [List.filter_filter]
  apply List.filter_congr
  intro d _
  rw [monthMatches_eq]
  cases studentMatches sid d <;> cases inMonthRange y m d <;> rfl

theorem deleteMonthly_count (s : Store) (sid : String) (y m : Nat) :
    (deleteMonthlyAttendance s sid y m).1 =
      (s.filter (monthMatches sid y m)).length := by
  unfold deleteMonthlyAttendance
  dsimp only
  split
  · rename_i hempty
    rw [List.isEmpty_iff] at hempty
    rw [← filter_month_via_student, hempty]
    rfl
  · split
    · rename_i hzero
      rw [beq_iff_eq] at hzero
      rw [← filter_month_via_student, hzero]
    · rw [← filter_month_via_student]

theorem deleteMonthly_no_month_docs (s : Store) (sid : String) (y m : Nat) :
    (deleteMonthlyAttendance s sid y m).2.filter (monthMatches sid y m) = [] := by
  unfold deleteMonthlyAttendance
  dsimp only
  split
  · rename_i hempty
    rw [List.isEmpty_iff] at hempty
    rw [← filter_month_via_student, hempty]
    rfl
  · split
    · rename_i hzero
      rw [beq_iff_eq, List.length_eq_zero] at hzero
      rw [← filter_month_via_student, hzero]
    · rw [List.filter_filter]
      rw [List.filter_eq_nil_iff]
      intro d _
      rw [monthMatches_eq]
      cases hs : studentMatches sid d <;> cases hr : inMonthRange y m d <;> simp [hs, hr]

/-! ### Claim theorems -/

/-- C2: for every store state, studentId, year, month and error oracle, the
list returned by `getStudentAttendance` is sorted ascending by date, every
returned record's date falls within the inclusive
`[firstDayOfMonth, lastDayOfMonth]` range of that month, and when no records
match the result is the empty sequence (the function is total, never null). -/
theorem getStudentAttendance_sorted_in_month_total (s : Store) (sid : String)
    (y m : Nat) (err : Option StoreErr) :
    (getStudentAttendance s sid y m err).Pairwise (fun a b => dateLe a b = true) ∧
    (∀ d ∈ getStudentAttendance s sid y m err,
      d.data.studentId = sid ∧ d.data.date.year = y ∧ d.data.date.month = m ∧
        1 ≤ d.data.date.day ∧ d.data.date.day ≤ daysInMonth y m) ∧
    (s.filter (monthMatches sid y m) = [] →
      getStudentAttendance s sid y m err = []) := by
  rw [get_eq_primary]
  exact ⟨primary_sorted s sid y m, fun d hd => primary_bounds s sid y m d hd,
    fun h => primary_empty_of_no_match s sid y m h⟩

/-- C2 witness: concrete instantiation on the empty store. -/
theorem getStudentAttendance_sorted_in_month_total_witness :
    (getStudentAttendance [] "S1" 2024 3 none).Pairwise
      (fun a b => dateLe a b = true) ∧
    (∀ d ∈ getStudentAttendance [] "S1" 2024 3 none,
      d.data.studentId = "S1" ∧ d.data.date.year = 2024 ∧ d.data.date.month = 3 ∧
        1 ≤ d.data.date.day ∧ d.data.date.day ≤ daysInMonth 2024 3) ∧
    getStudentAttendance [] "S1" 2024 3 none = [] := by
  have h := getStudentAttendance_sorted_in_month_total [] "S1" 2024 3 none
  exact ⟨h.1, h.2.1, h.2.2 rfl⟩

/-- C5: `deleteMonthlyAttendance` returns a count equal to the number of the
student's records in that month before the call (0 if none matched), and a
subsequent `getStudentAttendance` for the same month on the resulting store
returns the empty sequence (under any error oracle). -/
theorem deleteMonthlyAttendance_count_and_empty (s : Store) (sid : String)
    (y m : Nat) (err : Option StoreErr) :
    (deleteMonthlyAttendance s sid y m).1 =
      (s.filter (monthMatches sid y m)).length ∧
    getStudentAttendance (deleteMonthlyAttendance s sid y m).2 sid y m err = [] := by
  refine ⟨deleteMonthly_count s sid y m, ?_⟩
  rw [get_eq_primary]
  exact primary_empty_of_no_match _ sid y m (deleteMonthly_no_month_docs s sid y m)

/-- C7: when the primary compound query of `getStudentAttendance` throws any
store error — a missing-index error or any other — the error is not
propagated; the function runs the fallback: fetch all records of the student,
filter client-side by the month range, and sort ascending by parsed date. -/
theorem getStudentAttendance_error_runs_fallback (s : Store) (sid : String)
    (y m : Nat) (e : StoreErr) :
    getStudentAttendance s sid y m (some e) =
      getStudentAttendanceFallback s sid y m ∧
    getStudentAttendanceFallback s sid y m =
      ((s.filter (studentMatches sid)).filter (inMonthRange y m)).mergeSort dateLe := by
  constructor
  · show (if isIndexErr e = true then getStudentAttendanceFallback s sid y m
      else getStudentAttendanceFallback s sid y m) =
      getStudentAttendanceFallback s sid y m
    split <;> rfl
  · rfl

/-- C10: the primary path of `getStudentAttendance` (compound range query
ordered by date at the store) and the fallback path (fetch all records of the
student, filter client-side by the same range, sort ascending by parsed date)
return the same sequence of records, for every store state. -/
theorem getStudentAttendance_primary_eq_fallback (s : Store) (sid : String)
    (y m : Nat) :
    getStudentAttendancePrimary s sid y m = getStudentAttendanceFallback s sid y m :=
  (fallback_eq_primary s sid y m).symm

/-- C1: starting from any store satisfying the per-day uniqueness invariant
(with well-formed ids and dates), calling `markAttendance` twice with the same
`(studentId, date)` and different statuses leaves exactly one record for that
`(studentId, calendar day)`, carrying the second call's status; and the
invariant (at most one record per `(studentId, calendar day)`) is preserved by
any sequence of sequential operations. -/
theorem markAttendance_twice_unique_day
    (s : Store) (a1 a2 : MarkInput) (now1 now2 : Timestamp)
    (err1 err2 : Option StoreErr) (ops : List AttOp)
    (hwf : WellFormedStore s) (hu : UniqueDay s)
    (hsid : a1.studentId = a2.studentId) (hdate : a1.date = a2.date)
    (hstatus : a1.status ≠ a2.status) (hv : a2.date.Valid)
    (hops : ∀ op ∈ ops, op.Valid) :
    (∃ r, recordsForDay
        (markAttendance (markAttendance s a1 now1 err1).2 a2 now2 err2).2
        a2.studentId a2.date = [r] ∧ r.data.status = a2.status) ∧
      UniqueDay (runOps s ops) := by
  constructor
  · have hv1 : a1.date.Valid := hdate ▸ hv
    obtain ⟨hwf1, hu1⟩ := mark_preserves s a1 now1 err1 hwf hu hv1
    obtain ⟨hwf2, hu2⟩ :=
      mark_preserves (markAttendance s a1 now1 err1).2 a2 now2 err2 hwf1 hu1 hv
    obtain ⟨r, hr, hst, _, _⟩ :=
      mark_day_state (markAttendance s a1 now1 err1).2 a2 now2 err2 hwf1 hu1 hv
    refine ⟨r, ?_, hst⟩
    rw [recordsForDay_eq a2 hwf2]
    exact hr
  · exact (runOps_preserves ops s hops hwf hu).2

/-- C1 witness: two concrete calls on the empty store for the same day of
March 2024, first "present" then "absent". -/
theorem markAttendance_twice_unique_day_witness :
    (∃ r, recordsForDay
        (markAttendance (markAttendance []
            { studentId := "S1", date := ⟨2024, 3, 5, 10, 0, 0, 0⟩,
              status := "present", notes := none }
            ⟨2024, 3, 5, 10, 0, 0, 0⟩ none).2
          { studentId := "S1", date := ⟨2024, 3, 5, 10, 0, 0, 0⟩,
            status := "absent", notes := none }
          ⟨2024, 3, 5, 11, 0, 0, 0⟩ none).2
        "S1" ⟨2024, 3, 5, 10, 0, 0, 0⟩ = [r] ∧ r.data.status = "absent") ∧
      UniqueDay (runOps [] [AttOp.del 7]) := by
  have h := markAttendance_twice_unique_day []
    { studentId := "S1", date := ⟨2024, 3, 5, 10, 0, 0, 0⟩,
      status := "present", notes := none }
    { studentId := "S1", date := ⟨2024, 3, 5, 10, 0, 0, 0⟩,
      status := "absent", notes := none }
    ⟨2024, 3, 5, 10, 0, 0, 0⟩ ⟨2024, 3, 5, 11, 0, 0, 0⟩ none none
    [AttOp.del 7] (by decide) (by decide) rfl rfl (by decide) (by decide)
    (by intro op hop
        rcases List.mem_singleton.mp hop with rfl
        exact trivial)
  exact h

/-- C6: `deleteAttendance` returns `false` (with the store unchanged, and
without any fault — the function is total) when no record with the given id
exists, and returns `true` after removing the record when it does exist,
keeping every other record. -/
theorem deleteAttendance_by_id (s : Store) (i : Nat) :
    ((∀ d ∈ s, d.id ≠ i) → deleteAttendance s i = (false, s)) ∧
    ((∃ d ∈ s, d.id = i) → (deleteAttendance s i).1 = true ∧
      (∀ d ∈ (deleteAttendance s i).2, d.id ≠ i) ∧
      (∀ d ∈ s, d.id ≠ i → d ∈ (deleteAttendance s i).2)) := by
  constructor
  · intro h
    unfold deleteAttendance
    have hnone : getDoc s i = none := by
      unfold getDoc
      rw [List.find?_eq_none]
      intro d hd
      simpa using h d hd
    rw [hnone]
  · rintro ⟨d, hd, hdi⟩
    have hsome : (getDoc s i).isSome := by
      unfold getDoc
      rw [List.find?_isSome]
      exact ⟨d, hd, by simpa using hdi⟩
    obtain ⟨e, he⟩ := Option.isSome_iff_exists.mp hsome
    unfold deleteAttendance
    rw [he]
    refine ⟨rfl, ?_, ?_⟩
    · intro x hx
      simpa using (List.mem_filter.mp hx).2
    · intro x hx hxi
      exact List.mem_filter.mpr ⟨hx, by simpa using hxi⟩

/-- C6 witness: on a one-record store, deleting a nonexistent id returns
`false` and leaves the store unchanged; deleting the existing id returns
`true` and removes it. -/
theorem deleteAttendance_by_id_witness :
    deleteAttendance [cexStored] 2 = (false, [cexStored]) ∧
    (deleteAttendance [cexStored] 1).1 = true ∧
    (∀ d ∈ (deleteAttendance [cexStored] 1).2, d.id ≠ 1) := by
  have h2 := (deleteAttendance_by_id [cexStored] 2).1 (by decide)
  have h1 := (deleteAttendance_by_id [cexStored] 1).2
    ⟨cexStored, List.mem_singleton_self cexStored, rfl⟩
  exact ⟨h2, h1.1, h1.2.1⟩

/-- C8: `markAttendance` performs no validation of the status value: for any
input — including statuses outside `present | absent | leave` — it returns a
record, stored in the resulting state, whose status is the input status
verbatim; and the route-level validation of `POST /api/attendance` accepts
any non-empty status string. -/
theorem markAttendance_status_verbatim (s : Store) (a : MarkInput)
    (now : Timestamp) (err : Option StoreErr) :
    (∃ r, (markAttendance s a now err).1 = some r ∧
      r ∈ (markAttendance s a now err).2 ∧ r.data.status = a.status) ∧
    (∀ sid date st : String, sid ≠ "" → date ≠ "" → st ≠ "" →
      routeAcceptsMark sid date st = true) := by
  constructor
  · rcases mark_cases s a now err with ⟨d0, hd0, heq⟩ | ⟨_, heq⟩
    · rw [heq]
      show ∃ r, getDoc (updateStore s d0.id a now) d0.id = some r ∧
        r ∈ updateStore s d0.id a now ∧ r.data.status = a.status
      have hd0s : d0 ∈ s := (List.mem_filter.mp hd0).1
      unfold getDoc updateStore
      have hmem : (if d0.id == d0.id then applyUpdate a now d0 else d0) ∈
          s.map (fun d => if d.id == d0.id then applyUpdate a now d else d) :=
        List.mem_map_of_mem _ hd0s
      have hsome :
          ((s.map (fun d => if d.id == d0.id then applyUpdate a now d else d)).find?
            (fun d => d.id == d0.id)).isSome := by
        rw [List.find?_isSome]
        refine ⟨_, hmem, ?_⟩
        simp [applyUpdate]
      obtain ⟨r, hr⟩ := Option.isSome_iff_exists.mp hsome
      refine ⟨r, hr, List.mem_of_find?_eq_some hr, ?_⟩
      have hrid : (r.id == d0.id) = true := by simpa using List.find?_some hr
      obtain ⟨x, _, hxr⟩ := List.mem_map.mp (List.mem_of_find?_eq_some hr)
      by_cases h : x.id = d0.id
      · have hb : (x.id == d0.id) = true := beq_iff_eq.mpr h
        rw [← hxr, if_pos hb]
        rfl
      · exfalso
        have hb : ¬((x.id == d0.id) = true) := by simpa using h
        rw [← hxr, if_neg hb] at hrid
        exact h (by simpa using hrid)
    · rw [heq]
      show ∃ r, getDoc (s ++ [⟨freshId s, newRecord a now⟩]) (freshId s) = some r ∧
        r ∈ s ++ [⟨freshId s, newRecord a now⟩] ∧ r.data.status = a.status
      refine ⟨⟨freshId s, newRecord a now⟩, getDoc_append_fresh s (newRecord a now),
        ?_, rfl⟩
      exact List.mem_append_right s (List.mem_singleton_self _)
  · intro sid date st h1 h2 h3
    unfold routeAcceptsMark
    simp [h1, h2, h3]

/-- C8 witness: marking with status "banana" on the empty store stores and
returns "banana" verbatim, and the route accepts it. -/
theorem markAttendance_status_verbatim_witness :
    (∃ r, (markAttendance [] cexWeird cexNow none).1 = some r ∧
      r ∈ (markAttendance [] cexWeird cexNow none).2 ∧
      r.data.status = "banana") ∧
    routeAcceptsMark "S1" "2024-03-05" "banana" = true := by
  have h := markAttendance_status_verbatim [] cexWeird cexNow none
  exact ⟨h.1, h.2 "S1" "2024-03-05" "banana" (by decide) (by decide) (by decide)⟩

/-- C9: when `markAttendance` takes the update path (an existing record
matches the day query), the store changes only at the matched document, and
there only the fields `status`, `notes`, `updatedAt`; `id`, `studentId`,
`date`, `createdAt` and all other documents are unchanged. -/
theorem markAttendance_update_frame (s : Store) (a : MarkInput)
    (now : Timestamp) (err : Option StoreErr)
    (hne : s.filter (matchesDay a) ≠ []) :
    ∃ d0 ∈ s.filter (matchesDay a),
      List.Forall₂ (fun old new =>
        new.id = old.id ∧ new.data.studentId = old.data.studentId ∧
        new.data.date = old.data.date ∧
        new.data.createdAt = old.data.createdAt ∧
        (old.id ≠ d0.id → new = old) ∧
        (old.id = d0.id → new.data.status = a.status ∧
          new.data.notes = a.notes.getD "" ∧ new.data.updatedAt = now))
        s (markAttendance s a now err).2 := by
  rcases mark_cases s a now err with ⟨d0, hd0, heq⟩ | ⟨hnil, heq⟩
  · refine ⟨d0, hd0, ?_⟩
    rw [heq]
    show List.Forall₂ _ s (updateStore s d0.id a now)
    unfold updateStore
    rw [List.forall₂_map_right_iff]
    rw [List.forall₂_same]
    intro x _
    by_cases h : x.id = d0.id
    · have hb : (x.id == d0.id) = true := beq_iff_eq.mpr h
      rw [if_pos hb]
      exact ⟨rfl, rfl, rfl, rfl, fun hc => absurd h hc, fun _ => ⟨rfl, rfl, rfl⟩⟩
    · have hb : ¬((x.id == d0.id) = true) := by simpa using h
      rw [if_neg hb]
      exact ⟨rfl, rfl, rfl, rfl, fun _ => rfl, fun hc => absurd hc h⟩
  · exact absurd hnil hne

/-- C9 witness: concrete update of the one matching stored record. -/
theorem markAttendance_update_frame_witness :
    ∃ d0 ∈ ([cexStored] : Store).filter (matchesDay cexInput),
      List.Forall₂ (fun old new =>
        new.id = old.id ∧ new.data.studentId = old.data.studentId ∧
        new.data.date = old.data.date ∧
        new.data.createdAt = old.data.createdAt ∧
        (old.id ≠ d0.id → new = old) ∧
        (old.id = d0.id → new.data.status = cexInput.status ∧
          new.data.notes = cexInput.notes.getD "" ∧
          new.data.updatedAt = cexNow))
        [cexStored] (markAttendance [cexStored] cexInput cexNow none).2 :=
  markAttendance_update_frame [cexStored] cexInput cexNow none (by decide)

/-- C3: `getAttendanceSummary` returns `totalDays` equal to the number of
calendar days of the month, `present`/`absent`/`leave` equal to the counts of
that month's records with exactly those statuses, the sum
`present + absent + leave` at most `totalDays` (under the one-record-per-day
invariant), `percentage = round(present / totalDays * 100)`, and `percentage
= 0` whenever the guard's `totalDays` is `0`. -/
theorem getAttendanceSummary_correct (s : Store) (sid : String) (y m : Nat)
    (err : Option StoreErr) (hwf : WellFormedStore s) (hu : UniqueDay s) :
    (getAttendanceSummary s sid y m err).totalDays = daysInMonth y m ∧
    (getAttendanceSummary s sid y m err).present =
      ((getStudentAttendance s sid y m err).filter
        (fun r => r.data.status == "present")).length ∧
    (getAttendanceSummary s sid y m err).absent =
      ((getStudentAttendance s sid y m err).filter
        (fun r => r.data.status == "absent")).length ∧
    (getAttendanceSummary s sid y m err).leave =
      ((getStudentAttendance s sid y m err).filter
        (fun r => r.data.status == "leave")).length ∧
    (getAttendanceSummary s sid y m err).present +
        (getAttendanceSummary s sid y m err).absent +
        (getAttendanceSummary s sid y m err).leave ≤
      (getAttendanceSummary s sid y m err).totalDays ∧
    (getAttendanceSummary s sid y m err).percentage =
      mathRound (((getAttendanceSummary s sid y m err).present : ℚ) /
        (daysInMonth y m : ℚ) * 100) ∧
    (∀ l : List Doc, (computeSummary l 0).percentage = 0) := by
  refine ⟨rfl, rfl, rfl, rfl, ?_, ?_, fun l => rfl⟩
  · have hx : ∀ x : Doc,
        ¬((x.data.status == "present") = true ∧ (x.data.status == "absent") = true) ∧
        ¬((x.data.status == "present") = true ∧ (x.data.status == "leave") = true) ∧
        ¬((x.data.status == "absent") = true ∧ (x.data.status == "leave") = true) := by
      intro x
      refine ⟨?_, ?_, ?_⟩ <;> rintro ⟨hA, hB⟩ <;>
        rw [beq_iff_eq] at hA hB <;> rw [hA] at hB <;> exact absurd hB (by decide)
    have h3 := filter_three_le _ _ _ hx (getStudentAttendance s sid y m err)
    have hlen : (getStudentAttendance s sid y m err).length ≤ daysInMonth y m := by
      rw [get_eq_primary, primary_length]
      exact filter_month_length_le sid y m hwf hu
    exact Nat.le_trans h3 hlen
  · have hed : (getAttendanceSummary s sid y m err).percentage =
        if daysInMonth y m > 0 then
          mathRound (((getAttendanceSummary s sid y m err).present : ℚ) /
            (daysInMonth y m : ℚ) * 100)
        else 0 := rfl
    rw [hed, if_pos (daysInMonth_pos y m)]

/-- C3 witness: concrete instantiation on the empty store for March 2024. -/
theorem getAttendanceSummary_correct_witness :
    (getAttendanceSummary [] "S1" 2024 3 none).totalDays = daysInMonth 2024 3 ∧
    (getAttendanceSummary [] "S1" 2024 3 none).present =
      ((getStudentAttendance [] "S1" 2024 3 none).filter
        (fun r => r.data.status == "present")).length ∧
    (getAttendanceSummary [] "S1" 2024 3 none).absent =
      ((getStudentAttendance [] "S1" 2024 3 none).filter
        (fun r => r.data.status == "absent")).length ∧
    (getAttendanceSummary [] "S1" 2024 3 none).leave =
      ((getStudentAttendance [] "S1" 2024 3 none).filter
        (fun r => r.data.status == "leave")).length ∧
    (getAttendanceSummary [] "S1" 2024 3 none).present +
        (getAttendanceSummary [] "S1" 2024 3 none).absent +
        (getAttendanceSummary [] "S1" 2024 3 none).leave ≤
      (getAttendanceSummary [] "S1" 2024 3 none).totalDays ∧
    (getAttendanceSummary [] "S1" 2024 3 none).percentage =
      mathRound (((getAttendanceSummary [] "S1" 2024 3 none).present : ℚ) /
        (daysInMonth 2024 3 : ℚ) * 100) ∧
    (∀ l : List Doc, (computeSummary l 0).percentage = 0) :=
  getAttendanceSummary_correct [] "S1" 2024 3 none (by decide) (by decide)

/-- C4 counterexample: the update path of `markAttendance` does NOT return a
value reconstructed from the caller's inputs — it re-reads the document from
the store after the write.  Concretely: the stored record is at 08:00, the
caller marks 20:00 the same day; the returned record carries the stored 08:00
date and the stored `createdAt`, differs from the spec's
"reconstructed from inputs" value, and equals the post-write store document
(the re-read). -/
theorem markAttendance_update_not_reconstructed :
    (markAttendance [cexStored] cexInput cexNow none).1 = some cexReturned ∧
    cexReturned.data.date ≠ cexInput.date ∧
    cexReturned ≠ specReconstructedUpdateReturn 1 cexInput cexNow
      cexStored.data.createdAt ∧
    (markAttendance [cexStored] cexInput cexNow none).1 =
      getDoc (markAttendance [cexStored] cexInput cexNow none).2 1 := by
  have hflt : ([cexStored] : Store).filter (matchesDay cexInput) = [cexStored] := by
    decide
  have hmark : markAttendance [cexStored] cexInput cexNow none =
      markUpdatePath [cexStored] 1 cexInput cexNow := by
    unfold markAttendance
    rw [hflt, List.mergeSort_singleton]
    rfl
  rw [hmark]
  exact ⟨by decide, by decide, by decide, by decide⟩

/-- C4 amended: when `markAttendance` finds an existing record for the
`(studentId, calendar day)`, it updates that record's `status`, `notes` and
`updatedAt`, and the value it returns is the record RE-READ from the store
after the write (a second read round-trip): it equals the post-update store
document, so its `date` and `createdAt` are the stored ones rather than being
rebuilt from the caller's inputs. -/
theorem markAttendance_update_rereads (s : Store) (a : MarkInput)
    (now : Timestamp) (err : Option StoreErr) (d0 : Doc)
    (hwf : WellFormedStore s) (hflt : s.filter (matchesDay a) = [d0]) :
    (markAttendance s a now err).2 = updateStore s d0.id a now ∧
    (markAttendance s a now err).1 = getDoc (updateStore s d0.id a now) d0.id ∧
    (markAttendance s a now err).1 = some (applyUpdate a now d0) ∧
    (applyUpdate a now d0).id = d0.id ∧
    (applyUpdate a now d0).data.studentId = d0.data.studentId ∧
    (applyUpdate a now d0).data.date = d0.data.date ∧
    (applyUpdate a now d0).data.createdAt = d0.data.createdAt ∧
    (applyUpdate a now d0).data.status = a.status ∧
    (applyUpdate a now d0).data.notes = a.notes.getD "" ∧
    (applyUpdate a now d0).data.updatedAt = now := by
  rcases mark_cases s a now err with ⟨e0, he0, heq⟩ | ⟨hnil, heq⟩
  · rw [hflt] at he0
    rcases List.mem_singleton.mp he0 with rfl
    have hmem : e0 ∈ s :=
      (List.mem_filter.mp (hflt ▸ List.mem_singleton_self e0)).1
    have hget : getDoc s e0.id = some e0 := getDoc_of_mem_nodup hwf.1 hmem
    refine ⟨by rw [heq]; rfl, by rw [heq]; rfl, ?_, rfl, rfl, rfl, rfl, rfl, rfl, rfl⟩
    rw [heq]
    show getDoc (updateStore s e0.id a now) e0.id = some (applyUpdate a now e0)
    exact getDoc_updateStore a now hget
  · rw [hnil] at hflt
    cases hflt

/-- C4 amended witness: the concrete one-record store. -/
theorem markAttendance_update_rereads_witness :
    (markAttendance [cexStored] cexInput cexNow none).2 =
      updateStore [cexStored] cexStored.id cexInput cexNow ∧
    (markAttendance [cexStored] cexInput cexNow none).1 =
      getDoc (updateStore [cexStored] cexStored.id cexInput cexNow) cexStored.id ∧
    (markAttendance [cexStored] cexInput cexNow none).1 =
      some (applyUpdate cexInput cexNow cexStored) ∧
    (applyUpdate cexInput cexNow cexStored).id = cexStored.id ∧
    (applyUpdate cexInput cexNow cexStored).data.studentId =
      cexStored.data.studentId ∧
    (applyUpdate cexInput cexNow cexStored).data.date = cexStored.data.date ∧
    (applyUpdate cexInput cexNow cexStored).data.createdAt =
      cexStored.data.createdAt ∧
    (applyUpdate cexInput cexNow cexStored).data.status = cexInput.status ∧
    (applyUpdate cexInput cexNow cexStored).data.notes = cexInput.notes.getD "" ∧
    (applyUpdate cexInput cexNow cexStored).data.updatedAt = cexNow :=
  markAttendance_update_rereads [cexStored] cexInput cexNow none cexStored
    (by decide) (by decide)
